import Mathlib

/-!
# Verification of the KonfiguriDZ configuration-language compiler

Shallow embedding of `src/main.py`: a lark-based compiler for a small
declarative configuration language.  Statements `set NAME = value` are
processed in document order; values are strings `@"..."`, octal integers
`0oNNN`, arrays `(list ...)`, name references, or postfix expressions
`^{ ... }` evaluated by a stack machine.  The transformer runs inline
with the LALR parse, so each statement's value is resolved (bottom-up,
left to right) against the constant table as it stands before that
statement, after which the table entry is inserted or overwritten.

Python `dict` semantics are modelled by an association list where
updating an existing key keeps its position and a new key is appended.
Python exceptions are modelled by `Except Err`.
-/

namespace KonfiguriDZ

/-- Runtime values of the transformer: Python `int`, `str` and `list`
(the only value shapes `ConfigTransformer` produces). -/
inductive PyVal : Type where
  | int (n : Int)
  | str (s : String)
  | list (elems : List PyVal)

/-- The errors the transformer can raise (Python `ValueError`,
`TypeError` and `ZeroDivisionError`, told apart by their messages). -/
inductive Err : Type where
  /-- `ValueError: Undefined constant: <name>` from `name_ref`. -/
  | undefinedConstant (name : String)
  /-- `ValueError: Invalid octal number: <raw>` from `number`. -/
  | invalidOctal (raw : String)
  /-- `ValueError: Not enough operands for operator <op>`. -/
  | notEnoughOperands (op : String)
  /-- `TypeError: Math operations only supported for integers`. -/
  | typeError
  /-- Python `ZeroDivisionError` raised by `a // b` or `a % b` with `b = 0`. -/
  | divByZero
  /-- `ValueError: Expression error. Stack: ...` (final stack size ≠ 1). -/
  | malformedStack
  deriving Repr, BEq, DecidableEq

/-- The five operator productions of the grammar
(`op_plus | op_minus | op_mult | op_div | op_mod`). -/
inductive Op : Type where
  | plus | minus | mult | div | mod
  deriving Repr, BEq, DecidableEq

/-- The string each operator callback returns
(`op_plus` → `"+"`, ..., `op_mod` → `"mod"`). -/
def opText : Op → String
  | .plus => "+"
  | .minus => "-"
  | .mult => "*"
  | .div => "/"
  | .mod => "mod"

mutual
/-- Syntax-tree value nodes, per the grammar rule
`value: array | string | number | expression | name_ref`.
String and number nodes carry the raw matched token text, as the lark
callbacks receive it. -/
inductive ValueNode : Type where
  | strLit (raw : String)
  | intLit (raw : String)
  | array (elems : List ValueNode)
  | nameRef (name : String)
  | expr (toks : List ExprToken)

/-- One token of an expression body, per `expr_body: (value | operator)*`. -/
inductive ExprToken : Type where
  | val (v : ValueNode)
  | op (o : Op)
end

/-- A statement `set NAME = value` (rule `constant_decl`). -/
structure Stmt where
  name : String
  value : ValueNode

/-- The constant table `self.constants`: a Python dict from names to
resolved values, modelled as an insertion-ordered association list. -/
def Table : Type := List (String × PyVal)

/-- Python dict lookup `self.constants[name]` (keys are unique, so the
first match is the binding). -/
def lookupTable : Table → String → Option PyVal
  | [], _ => none
  | (m, w) :: rest, n => if m = n then some w else lookupTable rest n

/-- Python dict assignment `self.constants[name] = value`: an existing
key keeps its position and only its value changes; a new key is
appended at the end. -/
def dictInsert : Table → String → PyVal → Table
  | [], n, v => [(n, v)]
  | (m, w) :: rest, n, v =>
      if m = n then (m, v) :: rest else (m, w) :: dictInsert rest n v

/-- The names of a table in order, i.e. Python `list(d.keys())`. -/
def keys (t : Table) : List String := t.map Prod.fst

/-- `'0' ≤ c ≤ '7'`, the digits accepted by `int(_, 8)`. -/
def isOctDigit (c : Char) : Bool := '0' ≤ c && c ≤ '7'

/-- Accumulating base-8 parse of a digit string, as `int(_, 8)` does:
fails on the first non-octal-digit character. -/
def octDigitsAux : Nat → List Char → Option Nat
  | acc, [] => some acc
  | acc, c :: cs =>
      if isOctDigit c then octDigitsAux (8 * acc + (c.toNat - 48)) cs
      else none

/-- `int(s, 8)` on a digit string: nonempty and all octal digits. -/
def parseOctDigits : List Char → Option Nat
  | [] => none
  | cs => octDigitsAux 0 cs

/-- The `number` callback: normalise `O` to `o`
(`.replace('o','o').replace('O','o')` — the first replace is a no-op),
then `int(val, 8)`, which accepts an optional `0o` prefix followed by
octal digits; a failed parse raises
`ValueError: Invalid octal number: <raw>`. -/
def numberTrans (raw : String) : Except Err Int :=
  let norm := raw.data.map fun c => if c = 'O' then 'o' else c
  let body := match norm with
    | '0' :: 'o' :: rest => rest
    | l => l
  match parseOctDigits body with
  | some n => .ok (Int.ofNat n)
  | none => .error (.invalidOctal raw)

/-- The operator strings tested by
`if token in ["+", "-", "*", "/", "mod"]`. -/
def opStrings : List String := ["+", "-", "*", "/", "mod"]

/-- Whether a runtime value passes the `token in [...]` membership test
(only a string equal to one of the five operator strings does; `int`
and `list` values never compare equal to those strings in Python). -/
def isOpToken : PyVal → Bool
  | .str s => opStrings.contains s
  | _ => false

/-- Whether a runtime value is a Python `int`
(the `isinstance(_, int)` test of `expression`). -/
def isInt : PyVal → Bool
  | .int _ => true
  | _ => false

/-- The operator dispatch `if token == "+": ... elif token == "mod": ...`
applied to the two popped integers `a` and `b`.  Python `//` is floor
division (`Int.fdiv`) and `%` is floor modulo (`Int.fmod`); both raise
`ZeroDivisionError` when `b = 0`.  The final branch is unreachable:
`evalStep` only calls this with `s` among `opStrings`. -/
def applyOpStr (s : String) (a b : Int) : Except Err Int :=
  if s = "+" then .ok (a + b)
  else if s = "-" then .ok (a - b)
  else if s = "*" then .ok (a * b)
  else if s = "/" then
    if b = 0 then .error .divByZero else .ok (a.fdiv b)
  else if s = "mod" then
    if b = 0 then .error .divByZero else .ok (a.fmod b)
  else .error .typeError

/-- One iteration of the `for token in tokens` loop of `expression`:
a value passing the operator-membership test pops `b` then `a`
(the stack's head is its top, i.e. the most recently appended value),
type-checks both as integers, and pushes the operator result; any other
value is appended to the stack. -/
def evalStep (stack : List PyVal) (token : PyVal) : Except Err (List PyVal) :=
  match token with
  | .str s =>
      if opStrings.contains s then
        match stack with
        | b :: a :: rest =>
            match a, b with
            | .int x, .int y => (applyOpStr s x y).map fun r => PyVal.int r :: rest
            | _, _ => .error .typeError
        | _ => .error (.notEnoughOperands s)
      else .ok (.str s :: stack)
  | v => .ok (v :: stack)

/-- The whole token loop of `expression`, threading the stack. -/
def evalTokens : List PyVal → List PyVal → Except Err (List PyVal)
  | [], stack => .ok stack
  | tok :: ts, stack => (evalStep stack tok).bind (evalTokens ts)

/-- The `expression` callback on the already-transformed token list:
run the loop from an empty stack, then require exactly one value to
remain (`if len(stack) != 1: raise ...`). -/
def evalExpr (toks : List PyVal) : Except Err PyVal :=
  match evalTokens toks [] with
  | .ok [v] => .ok v
  | .ok _ => .error .malformedStack
  | .error e => .error e

mutual
/-- Resolution of a value node against the current constant table,
mirroring the lark callbacks `string` (strip the `@"` prefix and the
closing quote, `items[0][2:-1]`), `number`, `array`, `name_ref` and
`expression`. -/
def resolve : ValueNode → Table → Except Err PyVal
  | .strLit raw, _ => .ok (.str ((raw.drop 2).dropRight 1))
  | .intLit raw, _ => (numberTrans raw).map PyVal.int
  | .array es, t => (resolveList es t).map PyVal.list
  | .nameRef n, t =>
      match lookupTable t n with
      | some v => .ok v
      | none => .error (.undefinedConstant n)
  | .expr toks, t => (resolveToks toks t).bind evalExpr

/-- Resolve array elements left to right (lark transforms children in
order; the first failing child aborts everything). -/
def resolveList : List ValueNode → Table → Except Err (List PyVal)
  | [], _ => .ok []
  | v :: vs, t => do
      let r ← resolve v t
      let rs ← resolveList vs t
      pure (r :: rs)

/-- Transform expression tokens left to right: an operator production
becomes its string, a value node is resolved. -/
def resolveToks : List ExprToken → Table → Except Err (List PyVal)
  | [], _ => .ok []
  | .op o :: ts, t => (resolveToks ts t).map fun rs => PyVal.str (opText o) :: rs
  | .val v :: ts, t => do
      let r ← resolve v t
      let rs ← resolveToks ts t
      pure (r :: rs)
end

/-- Process statements in document order: resolve each declaration's
value against the table as it stands before the statement, then
insert/overwrite the entry (`self.constants[str(name)] = value`). -/
def compileAux : List Stmt → Table → Except Err Table
  | [], t => .ok t
  | s :: rest, t => (resolve s.value t).bind fun r => compileAux rest (dictInsert t s.name r)

/-- A whole document: run all statements starting from the empty table;
the result is the table the `start` callback returns.  Any raised error
aborts the compilation with no partial result. -/
def compileDoc (stmts : List Stmt) : Except Err Table := compileAux stmts []

/-- The standard base-8 interpretation of a digit string (most
significant digit first), used to state what octal literals mean. -/
def octDigitsVal (ds : List Char) : Nat :=
  ds.foldl (fun acc c => 8 * acc + (c.toNat - 48)) 0

/-- A string matching the lexer's number rule `/0[oO][0-7]+/`. -/
def matchesNumberRule (s : String) : Prop :=
  ∃ o ds, s.data = '0' :: o :: ds ∧ (o = 'o' ∨ o = 'O') ∧ ds ≠ [] ∧
    ∀ c ∈ ds, isOctDigit c = true

/-! ## Helper lemmas: the constant table -/

theorem lookup_dictInsert_self (t : Table) (n : String) (v : PyVal) :
    lookupTable (dictInsert t n v) n = some v := by
  induction t with
  | nil => simp [dictInsert, lookupTable]
  | cons p rest ih =>
      obtain ⟨m, w⟩ := p
      by_cases h : m = n <;> simp [dictInsert, lookupTable, h, ih]

theorem lookup_dictInsert_ne (t : Table) (n m : String) (v : PyVal)
    (h : m ≠ n) : lookupTable (dictInsert t n v) m = lookupTable t m := by
  induction t with
  | nil =>
      simp only [dictInsert, lookupTable]
      rw [if_neg (Ne.symm h)]
  | cons p rest ih =>
      obtain ⟨k, w⟩ := p
      by_cases hk : k = n
      · subst hk
        have hkm : ¬ k = m := fun e => h e.symm
        simp [dictInsert, lookupTable, hkm]
      · by_cases hm : k = m <;> simp [dictInsert, lookupTable, hk, hm, ih, h]

theorem keys_dictInsert_mem (t : Table) (n : String) (v : PyVal)
    (h : n ∈ keys t) : keys (dictInsert t n v) = keys t := by
  induction t with
  | nil => simp [keys] at h
  | cons p rest ih =>
      obtain ⟨m, w⟩ := p
      by_cases hm : m = n
      · simp [dictInsert, keys, hm]
      · have h' : n ∈ keys rest := by
          simp [keys] at h
          rcases h with h | h
          · exact absurd h.symm hm
          · simpa [keys] using h
        simp [dictInsert, keys, hm]
        simpa [keys] using ih h'

theorem keys_dictInsert_not_mem (t : Table) (n : String) (v : PyVal)
    (h : n ∉ keys t) : keys (dictInsert t n v) = keys t ++ [n] := by
  induction t with
  | nil => simp [dictInsert, keys]
  | cons p rest ih =>
      obtain ⟨m, w⟩ := p
      have hm : m ≠ n := by
        intro e; exact h (by simp [keys, e])
      have h' : n ∉ keys rest := by
        intro e; exact h (by simp [keys]; right; simpa [keys] using e)
      simp [dictInsert, keys, hm]
      simpa [keys] using ih h'

theorem nodup_keys_dictInsert (t : Table) (n : String) (v : PyVal)
    (h : (keys t).Nodup) : (keys (dictInsert t n v)).Nodup := by
  by_cases hm : n ∈ keys t
  · rwa [keys_dictInsert_mem t n v hm]
  · rw [keys_dictInsert_not_mem t n v hm]
    simp [List.nodup_append, h, hm]

theorem compileAux_append (xs ys : List Stmt) (t : Table) :
    compileAux (xs ++ ys) t = (compileAux xs t).bind (fun t' => compileAux ys t') := by
  induction xs generalizing t with
  | nil => simp [compileAux, Except.bind]
  | cons s rest ih =>
      simp only [List.cons_append, compileAux]
      cases hr : resolve s.value t with
      | ok r => exact ih (dictInsert t s.name r)
      | error e => rfl

theorem compileAux_lookup_of_no_decl (ys : List Stmt) (t t' : Table) (n : String)
    (hn : ∀ s ∈ ys, s.name ≠ n) (h : compileAux ys t = .ok t') :
    lookupTable t' n = lookupTable t n := by
  induction ys generalizing t with
  | nil => simp [compileAux] at h; subst h; rfl
  | cons s rest ih =>
      simp only [compileAux] at h
      cases hr : resolve s.value t with
      | error e => rw [hr] at h; simp [Except.bind] at h
      | ok r =>
          rw [hr] at h
          simp only [Except.bind] at h
          have hs : s.name ≠ n := hn s (by simp)
          have := ih (dictInsert t s.name r) (fun x hx => hn x (by simp [hx])) h
          rw [this, lookup_dictInsert_ne t s.name n r (fun e => hs e.symm)]

theorem mem_keys_compileAux (ys : List Stmt) (t t' : Table) (n : String)
    (h : compileAux ys t = .ok t') (hm : n ∈ keys t) : n ∈ keys t' := by
  induction ys generalizing t with
  | nil => simp [compileAux] at h; subst h; exact hm
  | cons s rest ih =>
      simp only [compileAux] at h
      cases hr : resolve s.value t with
      | error e => rw [hr] at h; simp [Except.bind] at h
      | ok r =>
          rw [hr] at h
          simp only [Except.bind] at h
          refine ih (dictInsert t s.name r) h ?_
          by_cases hmem : s.name ∈ keys t
          · rwa [keys_dictInsert_mem t s.name r hmem]
          · rw [keys_dictInsert_not_mem t s.name r hmem]; simp [hm]

theorem nodup_keys_compileAux (ys : List Stmt) (t t' : Table)
    (h : compileAux ys t = .ok t') (hnd : (keys t).Nodup) : (keys t').Nodup := by
  induction ys generalizing t with
  | nil => simp [compileAux] at h; subst h; exact hnd
  | cons s rest ih =>
      simp only [compileAux] at h
      cases hr : resolve s.value t with
      | error e => rw [hr] at h; simp [Except.bind] at h
      | ok r =>
          rw [hr] at h
          simp only [Except.bind] at h
          exact ih (dictInsert t s.name r) h (nodup_keys_dictInsert t s.name r hnd)

/-! ## Helper lemmas: octal literals -/

theorem octDigitsAux_all_digits (ds : List Char) (acc : Nat)
    (h : ∀ c ∈ ds, isOctDigit c = true) :
    octDigitsAux acc ds =
      some (ds.foldl (fun a c => 8 * a + (c.toNat - 48)) acc) := by
  induction ds generalizing acc with
  | nil => rfl
  | cons c cs ih =>
      have hc : isOctDigit c = true := h c (by simp)
      simp only [octDigitsAux, hc, if_true, List.foldl_cons]
      exact ih _ (fun x hx => h x (by simp [hx]))

theorem map_normO_of_digits (ds : List Char)
    (h : ∀ c ∈ ds, isOctDigit c = true) :
    ds.map (fun c => if c = 'O' then 'o' else c) = ds := by
  induction ds with
  | nil => rfl
  | cons c cs ih =>
      have hc : isOctDigit c = true := h c (by simp)
      have hcO : c ≠ 'O' := by
        intro e; subst e
        exact absurd hc (by decide)
      simp [hcO, ih (fun x hx => h x (by simp [hx]))]

theorem numberTrans_of_rule (o : Char) (ds : List Char)
    (ho : o = 'o' ∨ o = 'O') (hne : ds ≠ [])
    (h : ∀ c ∈ ds, isOctDigit c = true) :
    numberTrans (String.mk ('0' :: o :: ds)) = .ok (Int.ofNat (octDigitsVal ds)) := by
  have hdata : (String.mk ('0' :: o :: ds)).data = '0' :: o :: ds := rfl
  have hmap : ds.map (fun c => if c = 'O' then 'o' else c) = ds :=
    map_normO_of_digits ds h
  have hbody : ('0' :: o :: ds).map (fun c => if c = 'O' then 'o' else c) =
      '0' :: 'o' :: ds := by
    rcases ho with ho | ho <;> subst ho <;> simp [hmap]
  rw [numberTrans, hdata, hbody]
  obtain ⟨c, cs, rfl⟩ : ∃ c cs, ds = c :: cs := by
    cases ds with
    | nil => exact absurd rfl hne
    | cons c cs => exact ⟨c, cs, rfl⟩
  simp only [parseOctDigits, octDigitsAux_all_digits _ _ h, octDigitsVal]

/-! ## Helper lemmas: Python floor division and modulo -/

/-- For a negative divisor, Python's `%` (floor modulo, `Int.fmod`)
lies strictly between the divisor and zero (inclusive at zero). -/
theorem fmod_bounds_neg (a : Int) {b : Int} (hb : b < 0) :
    b < a.fmod b ∧ a.fmod b ≤ 0 := by
  match a, b with
  | .ofNat 0, .negSucc n =>
      rw [show Int.fmod (.ofNat 0) (.negSucc n) = 0 from rfl]
      exact ⟨hb, le_refl 0⟩
  | .ofNat (m+1), .negSucc n =>
      rw [show Int.fmod (.ofNat (m+1)) (.negSucc n) = Int.subNatNat (m % (n+1)) n from rfl,
        Int.subNatNat_eq_coe, Int.negSucc_eq]
      have h2 : m % (n+1) < n+1 := Nat.mod_lt m (Nat.succ_pos n)
      omega
  | .negSucc m, .negSucc n =>
      rw [show Int.fmod (.negSucc m) (.negSucc n) = -(Int.ofNat ((m+1) % (n+1))) from rfl,
        Int.negSucc_eq, Int.ofNat_eq_coe]
      have h2 : (m+1) % (n+1) < n+1 := Nat.mod_lt (m+1) (Nat.succ_pos n)
      omega
  | .ofNat m, .ofNat n => exact absurd hb (by rw [Int.ofNat_eq_coe]; omega)
  | .negSucc m, .ofNat n => exact absurd hb (by rw [Int.ofNat_eq_coe]; omega)

/-- Python's `//` on integers is the mathematical floor of the exact
quotient: `Int.fdiv a b = ⌊a / b⌋` over ℚ, for any nonzero `b`. -/
theorem fdiv_eq_floor (a b : Int) (hb : b ≠ 0) :
    a.fdiv b = ⌊(a : ℚ) / (b : ℚ)⌋ := by
  have hbq : (b : ℚ) ≠ 0 := Int.cast_ne_zero.mpr hb
  have hsum : ((a.fmod b : Int) : ℚ) + (b : ℚ) * ((a.fdiv b : Int) : ℚ) = (a : ℚ) := by
    exact_mod_cast congrArg (fun z : Int => (z : ℚ)) (Int.fmod_add_fdiv a b)
  have hdiv : (a : ℚ) / (b : ℚ) =
      ((a.fdiv b : Int) : ℚ) + ((a.fmod b : Int) : ℚ) / (b : ℚ) := by
    field_simp
    linarith [hsum]
  have hfrac0 : 0 ≤ ((a.fmod b : Int) : ℚ) / (b : ℚ) := by
    rcases hb.lt_or_lt with hneg | hpos
    · obtain ⟨h1, h2⟩ := fmod_bounds_neg a hneg
      have hm0 : ((a.fmod b : Int) : ℚ) ≤ 0 := by exact_mod_cast h2
      have hb0 : (b : ℚ) < 0 := by exact_mod_cast hneg
      rw [← neg_div_neg_eq]
      exact div_nonneg (by linarith) (by linarith)
    · have h0 : (0 : Int) ≤ a.fmod b := Int.fmod_nonneg' a hpos
      have hb0 : (0 : ℚ) < (b : ℚ) := by exact_mod_cast hpos
      exact div_nonneg (by exact_mod_cast h0) (le_of_lt hb0)
  have hfrac1 : ((a.fmod b : Int) : ℚ) / (b : ℚ) < 1 := by
    rcases hb.lt_or_lt with hneg | hpos
    · obtain ⟨h1, h2⟩ := fmod_bounds_neg a hneg
      have hb0 : (b : ℚ) < 0 := by exact_mod_cast hneg
      have hbm : (b : ℚ) < ((a.fmod b : Int) : ℚ) := by exact_mod_cast h1
      have hlt : (((a.fmod b : Int) : ℚ) - (b : ℚ)) / (b : ℚ) < 0 :=
        div_neg_of_pos_of_neg (by linarith) hb0
      rw [sub_div, div_self hbq] at hlt
      linarith
    · have h1 : a.fmod b < b := Int.fmod_lt_of_pos a hpos
      have hb0 : (0 : ℚ) < (b : ℚ) := by exact_mod_cast hpos
      exact (div_lt_one hb0).mpr (by exact_mod_cast h1)
  symm
  rw [Int.floor_eq_iff]
  constructor
  · rw [hdiv]; linarith
  · rw [hdiv]; linarith

/-! ## Claim theorems -/

/-- Claim C1: in expression evaluation, `/` and `mod` implement floor
semantics — for all integers `a`, `b` with `b ≠ 0`, `/` yields the
floor (toward negative infinity) of the exact quotient and `mod` the
floor-modulo whose sign follows the divisor; evaluating
`^{ 0o0 0o3 - 0o2 / }` yields `-2` and `^{ 0o7 0o2 / }` yields `3`. -/
theorem div_mod_floor_semantics :
    (∀ a b : Int, b ≠ 0 →
      applyOpStr "/" a b = .ok ⌊(a : ℚ) / (b : ℚ)⌋ ∧
      applyOpStr "mod" a b = .ok (a - b * ⌊(a : ℚ) / (b : ℚ)⌋) ∧
      (0 < b → 0 ≤ a.fmod b ∧ a.fmod b < b) ∧
      (b < 0 → b < a.fmod b ∧ a.fmod b ≤ 0)) ∧
    resolve (.expr [.val (.intLit "0o0"), .val (.intLit "0o3"), .op .minus,
      .val (.intLit "0o2"), .op .div]) [] = .ok (.int (-2)) ∧
    resolve (.expr [.val (.intLit "0o7"), .val (.intLit "0o2"), .op .div]) [] =
      .ok (.int 3) := by
  refine ⟨?_, rfl, rfl⟩
  intro a b hb
  have hdiv : applyOpStr "/" a b =
      if b = 0 then Except.error Err.divByZero else Except.ok (a.fdiv b) := rfl
  have hmod : applyOpStr "mod" a b =
      if b = 0 then Except.error Err.divByZero else Except.ok (a.fmod b) := rfl
  rw [hdiv, hmod, if_neg hb, if_neg hb]
  refine ⟨?_, ?_, ?_, ?_⟩
  · rw [fdiv_eq_floor a b hb]
  · rw [← fdiv_eq_floor a b hb, ← Int.fmod_def]
  · intro hpos; exact ⟨Int.fmod_nonneg' a hpos, Int.fmod_lt_of_pos a hpos⟩
  · intro hneg; exact fmod_bounds_neg a hneg

/-- Witness for C1 at `a = -3`, `b = 2`. -/
theorem div_mod_floor_semantics_witness :
    applyOpStr "/" (-3) 2 = .ok ⌊((-3 : Int) : ℚ) / ((2 : Int) : ℚ)⌋ :=
  (div_mod_floor_semantics.1 (-3) 2 (by decide)).1

/-- Claim C2: an operator token pops exactly two operands, `b` (top of
stack) then `a`, and pushes the result of the operator applied to
`(a, b)`; `-` computes `a - b`, so `^{ 0o10 0o3 - }` yields 5 and
`^{ 0o10 0o3 mod }` yields 2. -/
theorem operator_pops_b_then_a :
    (∀ (s : String) (a b : Int) (st : List PyVal), opStrings.contains s = true →
      evalStep (PyVal.int b :: PyVal.int a :: st) (PyVal.str s) =
        (applyOpStr s a b).map fun r => PyVal.int r :: st) ∧
    (∀ a b : Int, applyOpStr "-" a b = .ok (a - b)) ∧
    resolve (.expr [.val (.intLit "0o10"), .val (.intLit "0o3"), .op .minus]) [] =
      .ok (.int 5) ∧
    resolve (.expr [.val (.intLit "0o10"), .val (.intLit "0o3"), .op .mod]) [] =
      .ok (.int 2) := by
  refine ⟨?_, fun a b => rfl, rfl, rfl⟩
  intro s a b st hs
  simp only [evalStep, hs, if_true]

/-- Witness for C2 at operator `-`, operands `a = 8`, `b = 3`. -/
theorem operator_pops_b_then_a_witness :
    evalStep [PyVal.int 3, PyVal.int 8] (PyVal.str "-") =
      (applyOpStr "-" 8 3).map fun r => PyVal.int r :: [] :=
  operator_pops_b_then_a.1 "-" 8 3 [] (by decide)

/-- Claim C3: each statement's value is resolved against the table as
it stands before the statement, and only then is the entry written:
a reference to a present name yields its most recent value, a
reference to an absent name fails with the undefined-constant error,
and a self-reference `set A = ^{ A 0o1 + }` (A not yet declared) fails
with exactly that error. -/
theorem value_resolved_before_insert :
    (∀ (t : Table) (n : String) (v : PyVal), lookupTable t n = some v →
      resolve (.nameRef n) t = .ok v) ∧
    (∀ (t : Table) (n : String), lookupTable t n = none →
      resolve (.nameRef n) t = .error (.undefinedConstant n)) ∧
    (∀ (t : Table) (n : String) (v : PyVal),
      lookupTable (dictInsert t n v) n = some v) ∧
    (∀ (s : Stmt) (rest : List Stmt) (t : Table),
      compileAux (s :: rest) t =
        (resolve s.value t).bind fun r => compileAux rest (dictInsert t s.name r)) ∧
    compileDoc [⟨"A", .expr [.val (.nameRef "A"), .val (.intLit "0o1"), .op .plus]⟩] =
      .error (.undefinedConstant "A") := by
  refine ⟨?_, ?_, lookup_dictInsert_self, fun s rest t => rfl, rfl⟩
  · intro t n v h
    simp [resolve, h]
  · intro t n h
    simp [resolve, h]

/-- Witness for C3: looking up a declared name and a missing name. -/
theorem value_resolved_before_insert_witness :
    resolve (.nameRef "A") [("A", PyVal.int 7)] = .ok (PyVal.int 7) ∧
    resolve (.nameRef "B") [("A", PyVal.int 7)] = .error (.undefinedConstant "B") :=
  ⟨value_resolved_before_insert.1 [("A", PyVal.int 7)] "A" (PyVal.int 7) rfl,
   value_resolved_before_insert.2.1 [("A", PyVal.int 7)] "B" rfl⟩

/-- Claim C4: when a name is declared more than once, the final mapping
holds exactly one entry for it, whose value is the latest declaration's
resolved value (resolved against the table before that declaration). -/
theorem redeclaration_last_wins :
    ∀ (pre post : List Stmt) (name : String) (v : ValueNode) (t : Table),
      (∀ s ∈ post, s.name ≠ name) →
      compileDoc (pre ++ ⟨name, v⟩ :: post) = .ok t →
      ∃ tpre r, compileAux pre [] = .ok tpre ∧ resolve v tpre = .ok r ∧
        lookupTable t name = some r ∧ (keys t).count name = 1 := by
  intro pre post name v t hpost h
  rw [compileDoc, compileAux_append] at h
  cases hpre : compileAux pre [] with
  | error e => rw [hpre] at h; exact absurd h (by simp [Except.bind])
  | ok tpre =>
      rw [hpre] at h
      simp only [Except.bind] at h
      simp only [compileAux] at h
      cases hr : resolve v tpre with
      | error e => rw [hr] at h; exact absurd h (by simp [Except.bind])
      | ok r =>
          rw [hr] at h
          simp only [Except.bind] at h
          refine ⟨tpre, r, rfl, hr, ?_, ?_⟩
          · rw [compileAux_lookup_of_no_decl post _ t name hpost h,
              lookup_dictInsert_self]
          · have hmem : name ∈ keys (dictInsert tpre name r) := by
              by_cases hm : name ∈ keys tpre
              · rwa [keys_dictInsert_mem _ _ _ hm]
              · rw [keys_dictInsert_not_mem _ _ _ hm]; simp
            have hmem' : name ∈ keys t := mem_keys_compileAux post _ t name h hmem
            have hnd0 : (keys ([] : Table)).Nodup := by simp [keys]
            have hnd1 : (keys tpre).Nodup := nodup_keys_compileAux pre [] tpre hpre hnd0
            have hnd2 : (keys (dictInsert tpre name r)).Nodup :=
              nodup_keys_dictInsert tpre name r hnd1
            have hnd3 : (keys t).Nodup := nodup_keys_compileAux post _ t h hnd2
            exact List.count_eq_one_of_mem hnd3 hmem'

/-- Witness for C4: `set A = 0o1` followed by `set A = 0o2`. -/
theorem redeclaration_last_wins_witness :
    ∃ tpre r, compileAux [⟨"A", ValueNode.intLit "0o1"⟩] [] = .ok tpre ∧
      resolve (ValueNode.intLit "0o2") tpre = .ok r ∧
      lookupTable [("A", PyVal.int 2)] "A" = some r ∧
      (keys [("A", PyVal.int 2)]).count "A" = 1 :=
  redeclaration_last_wins [⟨"A", .intLit "0o1"⟩] [] "A" (.intLit "0o2")
    [("A", PyVal.int 2)] (by simp) rfl

/-- Counterexample to C5: re-declaring `A` after `B` leaves `A` in
first position (Python dicts keep the original insertion position on
overwrite), not at the place of its last declaration. -/
theorem redecl_position_cex :
    compileDoc [⟨"A", .intLit "0o1"⟩, ⟨"B", .intLit "0o2"⟩, ⟨"A", .intLit "0o3"⟩] =
      .ok [("A", PyVal.int 3), ("B", PyVal.int 2)] ∧
    compileDoc [⟨"A", .intLit "0o1"⟩, ⟨"B", .intLit "0o2"⟩, ⟨"A", .intLit "0o3"⟩] ≠
      .ok [("B", PyVal.int 2), ("A", PyVal.int 3)] := by
  refine ⟨rfl, ?_⟩
  rw [show compileDoc [⟨"A", .intLit "0o1"⟩, ⟨"B", .intLit "0o2"⟩, ⟨"A", .intLit "0o3"⟩] =
    .ok [("A", PyVal.int 3), ("B", PyVal.int 2)] from rfl]
  intro h
  have h0 : [("A", PyVal.int 3), ("B", PyVal.int 2)] =
      [("B", PyVal.int 2), ("A", PyVal.int 3)] := by injection h
  have h1 : ("A", PyVal.int 3) = ("B", PyVal.int 2) := by injection h0
  have h2 : "A" = "B" := congrArg Prod.fst h1
  exact absurd h2 (by decide)

/-- Amended C5: a re-declared name keeps the position of its first
declaration — overwriting updates the value in place and never moves
the key, while a fresh name is appended at the end. -/
theorem redecl_keeps_first_position :
    (∀ (t : Table) (n : String) (v : PyVal), n ∈ keys t →
      keys (dictInsert t n v) = keys t) ∧
    (∀ (t : Table) (n : String) (v : PyVal), n ∉ keys t →
      keys (dictInsert t n v) = keys t ++ [n]) ∧
    compileDoc [⟨"A", .intLit "0o1"⟩, ⟨"B", .intLit "0o2"⟩, ⟨"A", .intLit "0o3"⟩] =
      .ok [("A", PyVal.int 3), ("B", PyVal.int 2)] :=
  ⟨keys_dictInsert_mem, keys_dictInsert_not_mem, rfl⟩

/-- Witness for amended C5: overwriting `A` keeps the key order. -/
theorem redecl_keeps_first_position_witness :
    keys (dictInsert [("A", PyVal.int 1), ("B", PyVal.int 2)] "A" (PyVal.int 3)) =
      keys [("A", PyVal.int 1), ("B", PyVal.int 2)] :=
  redecl_keeps_first_position.1 [("A", PyVal.int 1), ("B", PyVal.int 2)] "A"
    (PyVal.int 3) (by simp [keys])

/-- Counterexample to C6: a string literal resolving to `"+"` inside an
expression is NOT pushed as data — the evaluator's membership test
`token in ["+", "-", "*", "/", "mod"]` cannot tell a resolved string
value from an operator marker, so `^{ 0o1 0o2 @"+" }` evaluates to 3
(the string acts as the `+` operator) instead of leaving a three-value
stack, and a lone `"mod"` string raises not-enough-operands instead of
being pushed. -/
theorem string_pushed_as_data_cex :
    resolve (.expr [.val (.intLit "0o1"), .val (.intLit "0o2"),
      .val (.strLit "@\"+\"")]) [] = .ok (.int 3) ∧
    evalStep [] (PyVal.str "mod") = .error (.notEnoughOperands "mod") ∧
    evalStep [] (PyVal.str "mod") ≠ .ok [PyVal.str "mod"] :=
  ⟨rfl, rfl, fun h => nomatch h⟩

/-- Amended C6: a resolved value is pushed as an operand exactly when
it fails the operator-membership test: every integer, every list, and
every string other than the five operator strings is pushed; a string
equal to an operator name is treated as that operator (so
`^{ 0o1 0o2 @"+" }` yields 3). -/
theorem nonoperator_values_pushed :
    (∀ (s : String) (st : List PyVal), opStrings.contains s = false →
      evalStep st (PyVal.str s) = .ok (.str s :: st)) ∧
    (∀ (n : Int) (st : List PyVal), evalStep st (.int n) = .ok (.int n :: st)) ∧
    (∀ (l : List PyVal) (st : List PyVal), evalStep st (.list l) = .ok (.list l :: st)) ∧
    resolve (.expr [.val (.intLit "0o1"), .val (.intLit "0o2"),
      .val (.strLit "@\"+\"")]) [] = .ok (.int 3) := by
  refine ⟨?_, fun n st => rfl, fun l st => rfl, rfl⟩
  intro s st hs
  simp only [evalStep, hs, Bool.false_eq_true, if_false]

/-- Witness for amended C6: a non-operator string is pushed. -/
theorem nonoperator_values_pushed_witness :
    evalStep [] (PyVal.str "x") = .ok [PyVal.str "x"] :=
  nonoperator_values_pushed.1 "x" [] (by decide)

/-- Claim C7: an operator processed with fewer than two stacked values
raises not-enough-operands; a popped non-integer operand raises the
type error; a final stack of size other than one (including zero, as
for the empty expression) raises the malformed-stack error; otherwise
the single remaining value is returned. -/
theorem expression_error_conditions :
    (∀ (s : String) (st : List PyVal), opStrings.contains s = true → st.length < 2 →
      evalStep st (PyVal.str s) = .error (.notEnoughOperands s)) ∧
    (∀ (s : String) (a b : PyVal) (st : List PyVal), opStrings.contains s = true →
      (isInt a = false ∨ isInt b = false) →
      evalStep (b :: a :: st) (PyVal.str s) = .error .typeError) ∧
    (∀ (toks st : List PyVal), evalTokens toks [] = .ok st → st.length ≠ 1 →
      evalExpr toks = .error .malformedStack) ∧
    (∀ (toks : List PyVal) (v : PyVal), evalTokens toks [] = .ok [v] →
      evalExpr toks = .ok v) ∧
    evalExpr [] = .error .malformedStack := by
  refine ⟨?_, ?_, ?_, ?_, rfl⟩
  · intro s st hs hlen
    match st with
    | [] => simp only [evalStep, hs, if_true]
    | [x] => simp only [evalStep, hs, if_true]
    | x :: y :: rest => exact absurd hlen (by simp)
  · intro s a b st hs hni
    simp only [evalStep, hs, if_true]
    match a, b with
    | .int x, .int y => simp [isInt] at hni
    | .int x, .str t => rfl
    | .int x, .list l => rfl
    | .str t, _ => rfl
    | .list l, _ => rfl
  · intro toks st h hlen
    rw [evalExpr, h]
    match st with
    | [] => rfl
    | [v] => simp at hlen
    | v :: w :: rest => rfl
  · intro toks v h
    rw [evalExpr, h]

/-- Witness for C7: operator on an empty stack, a string operand, a
two-value final stack. -/
theorem expression_error_conditions_witness :
    evalStep [] (PyVal.str "+") = .error (.notEnoughOperands "+") ∧
    evalStep [PyVal.str "x", PyVal.int 1] (PyVal.str "+") = .error .typeError ∧
    evalExpr [PyVal.int 1, PyVal.int 2] = .error .malformedStack ∧
    evalExpr [PyVal.int 1] = .ok (PyVal.int 1) :=
  ⟨expression_error_conditions.1 "+" [] (by decide) (by decide),
   expression_error_conditions.2.1 "+" (PyVal.int 1) (PyVal.str "x") []
     (by decide) (Or.inr rfl),
   expression_error_conditions.2.2.1 [PyVal.int 1, PyVal.int 2]
     [PyVal.int 2, PyVal.int 1] rfl (by decide),
   expression_error_conditions.2.2.2.1 [PyVal.int 1] (PyVal.int 1) rfl⟩

/-- Claim C8: `/` or `mod` applied with a zero divisor raises the
division-by-zero error, and the whole compilation aborts with that
error and no partial result. -/
theorem division_by_zero_aborts :
    (∀ a : Int, applyOpStr "/" a 0 = .error .divByZero ∧
      applyOpStr "mod" a 0 = .error .divByZero) ∧
    compileDoc [⟨"A", .intLit "0o5"⟩,
      ⟨"B", .expr [.val (.intLit "0o1"), .val (.intLit "0o0"), .op .div]⟩,
      ⟨"C", .intLit "0o7"⟩] = .error .divByZero ∧
    compileDoc [⟨"A", .expr [.val (.intLit "0o1"), .val (.intLit "0o0"), .op .mod]⟩] =
      .error .divByZero :=
  ⟨fun _ => ⟨rfl, rfl⟩, rfl, rfl⟩

/-- Claim C9: an octal literal `0oNNN` or `0ONNN` with digits in 0–7
resolves to the integer given by the standard base-8 reading of the
digits; `0o17` resolves to 15 and `0o0` to 0. -/
theorem octal_literal_base8 :
    (∀ (o : Char) (ds : List Char), (o = 'o' ∨ o = 'O') → ds ≠ [] →
      (∀ c ∈ ds, isOctDigit c = true) →
      numberTrans (String.mk ('0' :: o :: ds)) = .ok (Int.ofNat (octDigitsVal ds))) ∧
    numberTrans "0o17" = .ok 15 ∧ numberTrans "0o0" = .ok 0 :=
  ⟨numberTrans_of_rule, rfl, rfl⟩

/-- Witness for C9 at the literal `0o17`. -/
theorem octal_literal_base8_witness :
    numberTrans (String.mk ['0', 'o', '1', '7']) =
      .ok (Int.ofNat (octDigitsVal ['1', '7'])) :=
  octal_literal_base8.1 'o' ['1', '7'] (Or.inl rfl) (by decide) (by decide)

/-- Claim C10: for any token text matching the lexer's number rule
`/0[oO][0-7]+/`, the `number` callback succeeds — its invalid-octal
error branch is unreachable. -/
theorem octal_error_unreachable :
    ∀ s : String, matchesNumberRule s → ∃ n : Int, numberTrans s = .ok n := by
  intro s hs
  obtain ⟨o, ds, hdata, ho, hne, h⟩ := hs
  refine ⟨Int.ofNat (octDigitsVal ds), ?_⟩
  have hmk : s = String.mk ('0' :: o :: ds) := by
    cases s with
    | mk d =>
        have : d = '0' :: o :: ds := hdata
        rw [this]
  rw [hmk]
  exact numberTrans_of_rule o ds ho hne h

/-- Witness for C10 at the literal `0O20`. -/
theorem octal_error_unreachable_witness :
    ∃ n : Int, numberTrans "0O20" = .ok n :=
  octal_error_unreachable "0O20" ⟨'O', ['2', '0'], rfl, Or.inr rfl, by decide, by decide⟩

end KonfiguriDZ
